import Mathlib

/-!
Verification of the DHART spatial-structures Graph (graph.h) and the
HF_STATUS error-code table against the repository's specification.

The repository ships only the declarations and doc comments of
`HF::SpatialStructures::Graph` (graph.h); the member-function bodies
(graph.cpp) are not part of the sources available here.  Where a body is
missing, the corresponding Lean definition is modelled from the spec's
words (marked `Modelled from the spec:` in its doc comment), with the
graph.h doc comments — which are part of the sources — used to fix details
the spec leaves open (e.g. the initial `needs_compression = true`, the
retention of the triplet list after compression, getID's `-1` sentinel).

Machine floats (f32 coordinates and weights) are modelled as rationals:
the claims under study concern id assignment, triplet merging and CSR
layout, none of which depend on rounding.
-/

namespace DHART

/-- A 3-D point. Modelled from the spec: a `Node` is a Point (three
coordinates) keyed by position; the id and type tag live in the Graph. -/
structure Node where
  x : ℚ
  y : ℚ
  z : ℚ
deriving DecidableEq, Repr

/-- The absolute tolerance used for Point equality (spec §3: default 1e-4). -/
def eps : ℚ := 1 / 10000

/-- Modelled from the spec: Point equality with absolute tolerance `eps`
applied componentwise. -/
def nodeEq (a b : Node) : Bool :=
  decide (|a.x - b.x| ≤ eps) && decide (|a.y - b.y| ≤ eps) && decide (|a.z - b.z| ≤ eps)

theorem nodeEq_refl (a : Node) : nodeEq a a = true := by
  simp [nodeEq, eps]

/-- A pending edge triplet `(parent_id, child_id, weight)`, the element
type of `Graph::triplets` (graph.h line 101). -/
abbrev Trip : Type := Nat × Nat × ℚ

/-- Row-major sparse matrix in CSR form.  We store the rows as explicit
(column, value) lists; the three flat Eigen arrays (outer starts, inner
indices, data) are derived below, so equality of `CSR` values is equality
of the flat arrays plus the dimensions. -/
structure CSR where
  rows : Nat
  cols : Nat
  rowList : List (List (Nat × ℚ))
deriving DecidableEq, Repr

/-- Outer-index array of a CSR: cumulative nonzero counts, starting at `acc`. -/
def outerFrom (acc : Nat) : List (List (Nat × ℚ)) → List Nat
  | [] => [acc]
  | r :: rs => acc :: outerFrom (acc + r.length) rs

/-- The CSR's outer index array (row start offsets, length rows+1). -/
def CSR.outerArr (m : CSR) : List Nat := outerFrom 0 m.rowList

/-- The CSR's inner index array (column index of each nonzero, row-major). -/
def CSR.innerArr (m : CSR) : List Nat := (m.rowList.flatten).map Prod.fst

/-- The CSR's data array (value of each nonzero, row-major). -/
def CSR.dataArr (m : CSR) : List ℚ := (m.rowList.flatten).map Prod.snd

/-- Number of stored nonzeros. -/
def CSR.nnz (m : CSR) : Nat := m.dataArr.length

/-- Value stored at (i, j), if any. -/
def CSR.lookup (m : CSR) (i j : Nat) : Option ℚ :=
  match m.rowList[i]? with
  | none => none
  | some r => (r.find? (fun e => e.1 == j)).map (fun e => e.2)

/-- The (row, column) key of every stored entry, row-major, rows tagged
starting at index `i`. -/
def keysAux (i : Nat) : List (List (Nat × ℚ)) → List (Nat × Nat)
  | [] => []
  | r :: rs => r.map (fun e => (i, e.1)) ++ keysAux (i + 1) rs

/-- The (row, column) key of every entry stored in the CSR. -/
def CSR.entryKeys (m : CSR) : List (Nat × Nat) := keysAux 0 m.rowList

/-- The empty 0x0 matrix (a default-constructed Eigen sparse matrix). -/
def emptyCSR : CSR := { rows := 0, cols := 0, rowList := [] }

/-- The Graph state: ordered node list, the Point-to-id hash map (as an
association list probed with `nodeEq`), the next fresh id, the pending
triplet list, the CSR, and the compression flag (graph.h lines 96-102). -/
structure Graph where
  ordered_nodes : List Node
  idmap : List (Node × Nat)
  next_id : Nat
  triplets : List Trip
  csr : CSR
  needs_compression : Bool
deriving DecidableEq, Repr

/-- A graph made by the empty constructor: no nodes, no triplets, a 0x0
matrix, and `needs_compression = true` (graph.h lines 96-102, 226). -/
def emptyGraph : Graph :=
  { ordered_nodes := [], idmap := [], next_id := 0, triplets := [],
    csr := emptyCSR, needs_compression := true }

/-- Modelled from the spec: `getOrAssignID(Point p)` — if id_map contains
p (under eps), return its id; else append to ordered_nodes, insert into
id_map with id = next_id++, and return the new id.  (The body of
`Graph::getOrAssignID` is not in the sources; graph.h lines 104-122
document this behaviour.) -/
def getOrAssignID (g : Graph) (p : Node) : Nat × Graph :=
  match g.idmap.find? (fun e => nodeEq e.1 p) with
  | some e => (e.2, g)
  | none =>
      (g.next_id,
        { g with
          ordered_nodes := g.ordered_nodes ++ [p]
          idmap := g.idmap ++ [(p, g.next_id)]
          next_id := g.next_id + 1 })

/-- Modelled from the spec: `addEdge(parent, child, score)` assigns ids to
both endpoints and appends a pending triplet, marking the graph as needing
compression (graph.h lines 562-609: "adds a new element to the triplet
list so next time Compress is called, the value is added to the graph"). -/
def addEdge (g : Graph) (parent child : Node) (score : ℚ) : Graph :=
  let r1 := getOrAssignID g parent
  let r2 := getOrAssignID r1.2 child
  { r2.2 with
    triplets := r2.2.triplets ++ [(r1.1, r2.1, score)]
    needs_compression := true }

/-- Apply a sequence of `addEdge` calls. -/
def addEdges (ops : List (Node × Node × ℚ)) (g : Graph) : Graph :=
  ops.foldl (fun g t => addEdge g t.1 t.2.1 t.2.2) g

/-- Apply a sequence of node presentations (`getOrAssignID` for the side
effect only). -/
def presentAll (ps : List Node) (g : Graph) : Graph :=
  ps.foldl (fun g p => (getOrAssignID g p).2) g

/-- Does a triplet's (parent, child) key equal (p, c)? -/
def tripKey (p c : Nat) (t : Trip) : Bool := t.1 == p && t.2.1 == c

/-- The weight of the last pending triplet written for key (p, c), if
any: the "last write wins" merge rule (spec §4.C compression protocol). -/
def lastWeight (ts : List Trip) (p c : Nat) : Option ℚ :=
  ((ts.filter (tripKey p c)).getLast?).map (fun t => t.2.2)

/-- Row i of the merged matrix: one entry per column j < n that has at
least one pending triplet, carrying the last-written weight. -/
def rowEntries (ts : List Trip) (n i : Nat) : List (Nat × ℚ) :=
  (List.range n).filterMap (fun j => (lastWeight ts i j).map (fun w => (j, w)))

/-- Merge a triplet list into an n x n CSR, deduplicating on
(parent, child) with the last-written weight winning. -/
def buildCSR (n : Nat) (ts : List Trip) : CSR :=
  { rows := n, cols := n, rowList := (List.range n).map (rowEntries ts n) }

/-- Modelled from the spec: `Graph::Compress` — a no-op on an already
compressed graph (graph.h line 837: "This won't do anything if called on
an already compressed graph"); otherwise resize the matrix to
(max_id+1) x (max_id+1) and merge the pending triplets, last write
winning, then clear the flag.  The triplet list is kept to allow further
mutation (graph.h lines 838-840). -/
def Compress (g : Graph) : Graph :=
  if g.needs_compression then
    { g with csr := buildCSR g.next_id g.triplets, needs_compression := false }
  else g

/-- Errors raised by Graph queries: the uncompressed-graph exception
(graph.h lines 239, 284, 424, 476) and the out-of-range exception of
`NodeFromID` / `AggregateGraph` (graph.h lines 475, 932). -/
inductive GraphError where
  | uncompressed
  | out_of_range
deriving DecidableEq, Repr

/-- `Graph::checkForEdge`: scan the parent's row of the CSR for child
(graph.h lines 135-148). -/
def checkForEdge (g : Graph) (parent child : Nat) : Bool :=
  (g.csr.lookup parent child).isSome

/-- `Graph::getID`: the id assigned to this node, `-1` if it was never
added (graph.h line 785: "The ID assigned to this node. -1 if it was not
yet added to the graph"). -/
def getID (g : Graph) (n : Node) : Int :=
  match g.idmap.find? (fun e => nodeEq e.1 n) with
  | some e => (e.2 : Int)
  | none => -1

/-- `Graph::hasKey`: a single probe of the hash map (graph.h lines 658-708). -/
def hasKey (g : Graph) (n : Node) : Bool :=
  (g.idmap.find? (fun e => nodeEq e.1 n)).isSome

/-- Modelled from the spec: `Graph::HasEdge` by ids — raises the
uncompressed error when `needs_compression` is set (graph.h line 318),
otherwise looks in the CSR, also for the reverse edge when undirected. -/
def HasEdgeID (g : Graph) (parent child : Nat) (undirected : Bool) :
    Except GraphError Bool :=
  if g.needs_compression then .error .uncompressed
  else .ok (checkForEdge g parent child || (undirected && checkForEdge g child parent))

/-- Modelled from the spec: `Graph::HasEdge` by nodes — gets the ids of
both nodes then defers to the id overload (graph.h lines 273-308); a node
that is not in the graph has no edges. -/
def HasEdge (g : Graph) (parent child : Node) (undirected : Bool) :
    Except GraphError Bool :=
  if g.needs_compression then .error .uncompressed
  else
    match getID g parent, getID g child with
    | .ofNat p, .ofNat c => HasEdgeID g p c undirected
    | _, _ => .ok false

/-- Modelled from the spec: `Graph::GetEdges` — every node's outgoing
edge set `(parent_id, [(child_id, weight)])` read off the CSR; raises the
uncompressed error when the graph has not been compressed
(graph.h lines 418-461). -/
def GetEdges (g : Graph) : Except GraphError (List (Nat × List (Nat × ℚ))) :=
  if g.needs_compression then .error .uncompressed
  else .ok ((List.range g.csr.rows).map (fun i => (i, g.csr.rowList.getD i [])))

/-- Methods of aggregating the edge costs per node (graph.h lines 21-32). -/
inductive COST_AGGREGATE where
  /-- Add the cost of all edges. -/
  | SUM
  /-- Average the cost of all edges. -/
  | AVERAGE
  /-- Count how many edges this node has. -/
  | COUNT
deriving DecidableEq, Repr

/-- Reduce one node's incident (child, weight) list to a score: SUM adds
the weights, COUNT counts them, AVERAGE divides SUM by the count and is 0
for a node with no edges (spec §4.C aggregation, convention fixed to 0). -/
def aggVal (agg : COST_AGGREGATE) (es : List (Nat × ℚ)) : ℚ :=
  match agg with
  | .SUM => (es.map Prod.snd).sum
  | .COUNT => (es.length : ℚ)
  | .AVERAGE =>
      if es.length = 0 then 0 else (es.map Prod.snd).sum / (es.length : ℚ)

/-- A node's undirected incident edge list: outgoing union incoming, each
counted once, preferring the outgoing weight (spec §4.C aggregation). -/
def undirectedRow (m : CSR) (i : Nat) : List (Nat × ℚ) :=
  (List.range m.cols).filterMap (fun j =>
    match m.lookup i j with
    | some w => some (j, w)
    | none => (m.lookup j i).map (fun w => (j, w)))

/-- Modelled from the spec: `Graph::AggregateGraph` — raises the
uncompressed error when the graph is not compressed (graph.h line 476);
otherwise returns one score per CSR row (directed: outgoing edges only;
undirected: outgoing union incoming). -/
def AggregateGraph (g : Graph) (agg : COST_AGGREGATE) (directed : Bool) :
    Except GraphError (List ℚ) :=
  if g.needs_compression then .error .uncompressed
  else if directed then
    .ok (g.csr.rowList.map (aggVal agg))
  else
    .ok ((List.range g.csr.rows).map (fun i => aggVal agg (undirectedRow g.csr i)))

/-- `Graph::NodeFromID`: the node with this id, or the out-of-range error
(graph.h lines 928-961). -/
def NodeFromID (g : Graph) (id : Int) : Except GraphError Node :=
  if id < 0 then .error .out_of_range
  else
    match g.ordered_nodes[id.toNat]? with
    | some n => .ok n
    | none => .error .out_of_range

/-- The CSR-export struct (graph.h lines 42-49): sizes plus the three
array pointers, each of which may be null (modelled as `none`). -/
structure CSRPtrs where
  nnz : Int
  rows : Int
  cols : Int
  data : Option (List ℚ)
  outer_indices : Option (List Nat)
  inner_indices : Option (List Nat)
deriving DecidableEq, Repr

/-- `CSRPtrs::AreValid` (graph.h lines 79-81): true iff data,
outer_indices and inner_indices are all non-null. -/
def CSRPtrs.AreValid (c : CSRPtrs) : Bool :=
  c.data.isSome && c.outer_indices.isSome && c.inner_indices.isSome

/-- Modelled from the spec: `Graph::GetCSRPointers` — compresses the graph
itself if needed (graph.h line 887: "This will automatically call Compress
if it hasn't been called already"), then exports the three arrays; when
the CSR could not be constructed (such as from empty input, graph.h lines
882-884) the pointers are null.  Returns the exported struct together
with the possibly-compressed graph. -/
def GetCSRPointers (g : Graph) : CSRPtrs × Graph :=
  let g2 := Compress g
  let m := g2.csr
  if m.dataArr.isEmpty then
    ({ nnz := 0, rows := (m.rows : Int), cols := (m.cols : Int),
       data := none, outer_indices := none, inner_indices := none }, g2)
  else
    ({ nnz := (m.dataArr.length : Int), rows := (m.rows : Int), cols := (m.cols : Int),
       data := some m.dataArr, outer_indices := some m.outerArr,
       inner_indices := some m.innerArr }, g2)

/-- Modelled from the spec: the `Graph(edges, distances, Nodes)`
constructor — assigns ids to the nodes in order, stages one triplet
`(i, edges[i][k], distances[i][k])` per declared edge, and compresses
(graph.h lines 155-207: "Preallocates the matrix element by element and
compresses it"). -/
def fromArrays (edges : List (List Nat)) (distances : List (List ℚ))
    (nodes : List Node) : Graph :=
  let g0 := presentAll nodes emptyGraph
  let ts := (edges.zip distances).enum.flatMap
    (fun rowi => (rowi.2.1.zip rowi.2.2).map (fun e => (rowi.1, e.1, e.2)))
  Compress { g0 with triplets := ts, needs_compression := true }

/-- The nonzero values of row i of the CSR, read off the three flat
arrays the way a CSR consumer does: the slice of the data array between
outer[i] and outer[i+1]. -/
def CSR.rowSlice (m : CSR) (i : Nat) : List ℚ :=
  (m.dataArr.drop (m.outerArr.getD i 0)).take
    (m.outerArr.getD (i + 1) 0 - m.outerArr.getD i 0)

/-- The native status-code enumeration `HF_STATUS` as declared in the
sources (C# binding, values and doc comments copied from the enum body). -/
inductive HF_STATUS where
  | OK
  | NOT_IMPLEMENTED
  | GENERIC_ERROR
  | NOT_FOUND
  | INVALID_MESH
  | NO_GRAPH
  | INVALID_COST
  | MISSING_DEPEND
  | OUT_OF_MEMORY
  | MALFORMED_DB
  | DB_BUSY
  | INVALID_PTR
  | OUT_OF_RANGE
  | NO_PATH
deriving DecidableEq, Repr

/-- The numeric value of each `HF_STATUS` member, from the enum body. -/
def HF_STATUS.value : HF_STATUS → Int
  | .OK => 1
  | .NOT_IMPLEMENTED => -54
  | .GENERIC_ERROR => 0
  | .NOT_FOUND => -1
  | .INVALID_MESH => -2
  | .NO_GRAPH => -3
  | .INVALID_COST => -4
  | .MISSING_DEPEND => -5
  | .OUT_OF_MEMORY => -6
  | .MALFORMED_DB => -7
  | .DB_BUSY => -8
  | .INVALID_PTR => -9
  | .OUT_OF_RANGE => -10
  | .NO_PATH => -11

/-- Members whose doc comment in the sources reads "Unused.": they are
never returned by any operation. -/
def HF_STATUS.isUnused : HF_STATUS → Bool
  | .INVALID_COST => true
  | .MALFORMED_DB => true
  | .DB_BUSY => true
  | _ => false

/-- The status-code set the spec lists for operation returns (spec §6). -/
def claimedStatusCodes : List HF_STATUS :=
  [.OK, .GENERIC_ERROR, .NOT_FOUND, .INVALID_MESH, .NO_GRAPH, .MISSING_DEPEND,
   .OUT_OF_MEMORY, .INVALID_PTR, .OUT_OF_RANGE, .NO_PATH, .NOT_IMPLEMENTED]

/-- Modelled from the spec: the foreign-function operation layer is not
among the sources, only the status enum it returns.  Per the spec (§6), an
operation maps its input to a status code together with an optional
out-parameter; it never returns a code the enum marks "Unused.", and it
populates the out-parameter only when the status is OK. -/
structure SpecOperation (I A : Type) where
  run : I → HF_STATUS × Option A
  returns_used : ∀ x, ((run x).1).isUnused = false
  out_only_on_ok : ∀ x, ((run x).2).isSome = true → (run x).1 = HF_STATUS.OK

/-- A trivial operation that always succeeds with out-parameter 0, for
concrete instantiations. -/
def constOkOp : SpecOperation Unit Nat :=
  { run := fun _ => (HF_STATUS.OK, some 0)
    returns_used := fun _ => rfl
    out_only_on_ok := fun _ _ => rfl }

/-- Sample node at the origin, for concrete instantiations. -/
def nA : Node := { x := 0, y := 0, z := 0 }

/-- Sample node one unit along x, for concrete instantiations. -/
def nB : Node := { x := 1, y := 0, z := 0 }

/-- Sample node two units along x, for concrete instantiations. -/
def nC : Node := { x := 2, y := 0, z := 0 }

instance {e a : Type} [DecidableEq e] [DecidableEq a] : DecidableEq (Except e a) :=
  fun x y =>
    match x, y with
    | .ok u, .ok v =>
        if h : u = v then isTrue (by rw [h]) else isFalse (by simp [h])
    | .error u, .error v =>
        if h : u = v then isTrue (by rw [h]) else isFalse (by simp [h])
    | .ok _, .error _ => isFalse (by simp)
    | .error _, .ok _ => isFalse (by simp)

theorem compress_needs_compression (g : Graph) :
    (Compress g).needs_compression = false := by
  unfold Compress
  by_cases h : g.needs_compression <;> simp [h]

theorem compress_of_not_needed (g : Graph) (h : g.needs_compression = false) :
    Compress g = g := by
  unfold Compress
  simp [h]

theorem compress_compress (g : Graph) : Compress (Compress g) = Compress g :=
  compress_of_not_needed _ (compress_needs_compression g)

theorem find_filterMap_key (f : Nat → Option ℚ) (j : Nat) (l : List Nat) :
    ((l.filterMap (fun i => (f i).map (fun w => (i, w)))).find?
      (fun e => e.1 == j)) =
    if j ∈ l then (f j).map (fun w => (j, w)) else none := by
  induction l with
  | nil => simp
  | cons a l ih =>
      rcases hfa : f a with _ | w
      · rw [List.filterMap_cons]
        simp only [hfa, Option.map_none']
        rw [ih]
        by_cases hja : j = a
        · subst hja
          simp [hfa]
        · simp [List.mem_cons, hja]
      · rw [List.filterMap_cons]
        simp only [hfa, Option.map_some']
        by_cases hja : j = a
        · subst hja
          rw [List.find?_cons_of_pos _ (by simp)]
          simp [hfa]
        · rw [List.find?_cons_of_neg _ (by simp [Ne.symm hja])]
          rw [ih]
          simp [List.mem_cons, hja]

theorem lookup_buildCSR (n : Nat) (ts : List Trip) (i j : Nat) :
    (buildCSR n ts).lookup i j =
    if i < n ∧ j < n then lastWeight ts i j else none := by
  unfold buildCSR CSR.lookup
  simp only [List.getElem?_map]
  by_cases hi : i < n
  · rw [List.getElem?_range hi]
    simp only [Option.map_some']
    unfold rowEntries
    rw [find_filterMap_key (lastWeight ts i) j (List.range n)]
    by_cases hj : j < n
    · simp only [List.mem_range, hj, if_true, hi, true_and]
      rcases lastWeight ts i j with _ | w <;> simp
    · simp [List.mem_range, hj, hi]
  · have hnone : (List.range n)[i]? = none := by
      rw [List.getElem?_eq_none_iff]
      simpa using Nat.le_of_not_lt hi
    rw [hnone]
    simp [hi]

theorem lastWeight_eq_none_of_unbounded (ts : List Trip) (n i j : Nat)
    (hb : ∀ t ∈ ts, t.1 < n ∧ t.2.1 < n) (h : ¬(i < n ∧ j < n)) :
    lastWeight ts i j = none := by
  unfold lastWeight
  have hnil : ts.filter (tripKey i j) = [] := by
    rw [List.filter_eq_nil_iff]
    intro t ht htk
    rcases hb t ht with ⟨h1, h2⟩
    unfold tripKey at htk
    simp only [Bool.and_eq_true, beq_iff_eq] at htk
    exact h ⟨htk.1 ▸ h1, htk.2 ▸ h2⟩
  rw [hnil]
  rfl

theorem lookup_buildCSR_bounded (n : Nat) (ts : List Trip)
    (hb : ∀ t ∈ ts, t.1 < n ∧ t.2.1 < n) (i j : Nat) :
    (buildCSR n ts).lookup i j = lastWeight ts i j := by
  rw [lookup_buildCSR]
  by_cases h : i < n ∧ j < n
  · simp [h]
  · rw [if_neg h, lastWeight_eq_none_of_unbounded ts n i j hb h]

theorem fst_mem_of_mem_filterMap (f : Nat → Option ℚ) (l : List Nat)
    (x : Nat × ℚ) (hx : x ∈ l.filterMap (fun i => (f i).map (fun w => (i, w)))) :
    x.1 ∈ l := by
  rcases List.mem_filterMap.mp hx with ⟨a, ha, hfa⟩
  rcases hga : f a with _ | w
  · rw [hga] at hfa
    simp at hfa
  · rw [hga] at hfa
    simp only [Option.map_some', Option.some.injEq] at hfa
    rw [← hfa]
    exact ha

theorem nodup_fst_filterMap (f : Nat → Option ℚ) (l : List Nat)
    (hl : l.Nodup) :
    ((l.filterMap (fun i => (f i).map (fun w => (i, w)))).map Prod.fst).Nodup := by
  induction l with
  | nil => simp
  | cons a l ih =>
      rw [List.nodup_cons] at hl
      rw [List.filterMap_cons]
      rcases hfa : f a with _ | w
      · exact ih hl.2
      · simp only [Option.map_some']
        rw [List.map_cons, List.nodup_cons]
        refine ⟨fun hmem => ?_, ih hl.2⟩
        rcases List.mem_map.mp hmem with ⟨x, hx, hfst⟩
        have hx1 : x.1 ∈ l := fst_mem_of_mem_filterMap f l x hx
        rw [hfst] at hx1
        exact hl.1 hx1

theorem fst_ge_of_mem_keysAux (i : Nat) (L : List (List (Nat × ℚ)))
    (k : Nat × Nat) (hk : k ∈ keysAux i L) : i ≤ k.1 := by
  induction L generalizing i with
  | nil => simp [keysAux] at hk
  | cons r rs ih =>
      unfold keysAux at hk
      rcases List.mem_append.mp hk with h | h
      · rcases List.mem_map.mp h with ⟨e, _, he⟩
        rw [← he]
      · exact Nat.le_of_succ_le (ih (i + 1) h)

theorem nodup_keysAux (i : Nat) (L : List (List (Nat × ℚ)))
    (hL : ∀ r ∈ L, (r.map Prod.fst).Nodup) : (keysAux i L).Nodup := by
  induction L generalizing i with
  | nil => simp [keysAux]
  | cons r rs ih =>
      unfold keysAux
      rw [List.nodup_append]
      refine ⟨?_, ih (i + 1) (fun r hr => hL r (List.mem_cons_of_mem _ hr)), ?_⟩
      · have hr := hL r (List.mem_cons_self r rs)
        have hmm : r.map (fun e => (i, e.1)) = (r.map Prod.fst).map (fun c => (i, c)) := by
          rw [List.map_map]
          rfl
        rw [hmm]
        exact List.Nodup.map (fun a b hab => (Prod.ext_iff.mp hab).2) hr
      · intro k hk hk'
        have h1 : k.1 = i := by
          rcases List.mem_map.mp hk with ⟨e, _, he⟩
          rw [← he]
        have h2 : i + 1 ≤ k.1 := fst_ge_of_mem_keysAux (i + 1) rs k hk'
        omega

theorem nodup_entryKeys_buildCSR (n : Nat) (ts : List Trip) :
    ((buildCSR n ts).entryKeys).Nodup := by
  unfold CSR.entryKeys buildCSR
  refine nodup_keysAux 0 _ ?_
  intro r hr
  rcases List.mem_map.mp hr with ⟨i, _, hi⟩
  rw [← hi]
  exact nodup_fst_filterMap (lastWeight ts i) (List.range n) (List.nodup_range n)

theorem getOrAssignID_next_id_le (g : Graph) (p : Node) :
    g.next_id ≤ (getOrAssignID g p).2.next_id := by
  rcases h : g.idmap.find? (fun e => nodeEq e.1 p) with _ | e <;>
    simp [getOrAssignID, h]

theorem getOrAssignID_triplets (g : Graph) (p : Node) :
    (getOrAssignID g p).2.triplets = g.triplets := by
  rcases h : g.idmap.find? (fun e => nodeEq e.1 p) with _ | e <;>
    simp [getOrAssignID, h]

theorem getOrAssignID_id_lt (g : Graph) (p : Node)
    (hg : ∀ e ∈ g.idmap, e.2 < g.next_id) :
    (getOrAssignID g p).1 < (getOrAssignID g p).2.next_id := by
  rcases h : g.idmap.find? (fun e => nodeEq e.1 p) with _ | e <;>
    simp [getOrAssignID, h]
  exact hg e (List.mem_of_find?_eq_some h)

theorem getOrAssignID_idmap_bound (g : Graph) (p : Node)
    (hg : ∀ e ∈ g.idmap, e.2 < g.next_id) :
    ∀ e ∈ (getOrAssignID g p).2.idmap, e.2 < (getOrAssignID g p).2.next_id := by
  rcases h : g.idmap.find? (fun e => nodeEq e.1 p) with _ | e
  · simp only [getOrAssignID, h]
    intro e he
    rcases List.mem_append.mp he with h1 | h1
    · exact Nat.lt_succ_of_lt (hg e h1)
    · simp only [List.mem_singleton] at h1
      rw [h1]
      exact Nat.lt_succ_self _
  · simpa [getOrAssignID, h] using hg

/-- Every id stored in the id map or staged in a pending triplet is below
`next_id`: no triplet ever mentions an unassigned id. -/
def IdsBounded (g : Graph) : Prop :=
  (∀ e ∈ g.idmap, e.2 < g.next_id) ∧
  (∀ t ∈ g.triplets, t.1 < g.next_id ∧ t.2.1 < g.next_id)

theorem idsBounded_empty : IdsBounded emptyGraph := by
  constructor <;> intro x hx <;> simp [emptyGraph] at hx

theorem idsBounded_getOrAssignID (g : Graph) (p : Node) (h : IdsBounded g) :
    IdsBounded (getOrAssignID g p).2 := by
  refine ⟨getOrAssignID_idmap_bound g p h.1, ?_⟩
  rw [getOrAssignID_triplets]
  intro t ht
  rcases h.2 t ht with ⟨h1, h2⟩
  have hle := getOrAssignID_next_id_le g p
  exact ⟨Nat.lt_of_lt_of_le h1 hle, Nat.lt_of_lt_of_le h2 hle⟩

theorem idsBounded_addEdge (g : Graph) (p c : Node) (w : ℚ) (h : IdsBounded g) :
    IdsBounded (addEdge g p c w) := by
  have h1 := idsBounded_getOrAssignID g p h
  have h2 := idsBounded_getOrAssignID (getOrAssignID g p).2 c h1
  have hple : (getOrAssignID g p).1 < (getOrAssignID (getOrAssignID g p).2 c).2.next_id :=
    Nat.lt_of_lt_of_le (getOrAssignID_id_lt g p h.1)
      (getOrAssignID_next_id_le (getOrAssignID g p).2 c)
  have hcle : (getOrAssignID (getOrAssignID g p).2 c).1 <
      (getOrAssignID (getOrAssignID g p).2 c).2.next_id :=
    getOrAssignID_id_lt (getOrAssignID g p).2 c h1.1
  unfold addEdge
  refine ⟨h2.1, ?_⟩
  intro t ht
  rcases List.mem_append.mp ht with hm | hm
  · exact h2.2 t hm
  · simp only [List.mem_singleton] at hm
    rw [hm]
    exact ⟨hple, hcle⟩

theorem addEdges_cons (t : Node × Node × ℚ) (ts : List (Node × Node × ℚ)) (g : Graph) :
    addEdges (t :: ts) g = addEdges ts (addEdge g t.1 t.2.1 t.2.2) := rfl

theorem idsBounded_addEdges (ops : List (Node × Node × ℚ)) :
    ∀ g : Graph, IdsBounded g → IdsBounded (addEdges ops g) := by
  induction ops with
  | nil => exact fun g h => h
  | cons t ts ih =>
      intro g h
      rw [addEdges_cons]
      exact ih _ (idsBounded_addEdge g t.1 t.2.1 t.2.2 h)

theorem addEdge_needs_compression (g : Graph) (p c : Node) (w : ℚ) :
    (addEdge g p c w).needs_compression = true := rfl

theorem addEdges_needs_compression (ops : List (Node × Node × ℚ)) :
    ∀ g : Graph, g.needs_compression = true →
    (addEdges ops g).needs_compression = true := by
  induction ops with
  | nil => exact fun g h => h
  | cons t ts ih =>
      intro g h
      rw [addEdges_cons]
      exact ih _ rfl

theorem compress_csr_of_needed (g : Graph) (h : g.needs_compression = true) :
    (Compress g).csr = buildCSR g.next_id g.triplets := by
  unfold Compress
  rw [h]
  simp

/-- The id map lists exactly the ordered nodes, each paired with its
position, and `next_id` is the number of nodes: spec invariants 1 and 2. -/
def MapInv (g : Graph) : Prop :=
  g.next_id = g.ordered_nodes.length ∧
  g.idmap = g.ordered_nodes.enum.map (fun e => (e.2, e.1))

theorem mapInv_empty : MapInv emptyGraph := ⟨rfl, rfl⟩

theorem mapInv_getOrAssignID (g : Graph) (p : Node) (h : MapInv g) :
    MapInv (getOrAssignID g p).2 := by
  rcases hf : g.idmap.find? (fun e => nodeEq e.1 p) with _ | e
  · refine ⟨?_, ?_⟩ <;> simp only [getOrAssignID, hf]
    · simp [h.1]
    · rw [List.enum_append, List.map_append, h.2, h.1]
      rfl
  · simpa [getOrAssignID, hf] using h

theorem mapInv_presentAll (ps : List Node) :
    ∀ g : Graph, MapInv g → MapInv (presentAll ps g) := by
  induction ps with
  | nil => exact fun g h => h
  | cons p ps ih =>
      intro g h
      exact ih _ (mapInv_getOrAssignID g p h)

theorem mapInv_addEdge (g : Graph) (p c : Node) (w : ℚ) (h : MapInv g) :
    MapInv (addEdge g p c w) := by
  have h2 := mapInv_getOrAssignID _ c (mapInv_getOrAssignID g p h)
  exact h2

theorem mapInv_addEdges (ops : List (Node × Node × ℚ)) :
    ∀ g : Graph, MapInv g → MapInv (addEdges ops g) := by
  induction ops with
  | nil => exact fun g h => h
  | cons t ts ih =>
      intro g h
      rw [addEdges_cons]
      exact ih _ (mapInv_addEdge g t.1 t.2.1 t.2.2 h)

theorem mapInv_getElem (g : Graph) (h : MapInv g) (k : Nat) :
    g.idmap[k]? = (g.ordered_nodes[k]?).map (fun nd => (nd, k)) := by
  rw [h.2, List.getElem?_map, List.getElem?_enum]
  rcases g.ordered_nodes[k]? with _ | nd <;> rfl

theorem mapInv_mem (g : Graph) (h : MapInv g) (e : Node × Nat)
    (he : e ∈ g.idmap) : g.ordered_nodes[e.2]? = some e.1 := by
  rcases List.mem_iff_getElem?.mp he with ⟨k, hk⟩
  rw [mapInv_getElem g h k] at hk
  rcases hn : g.ordered_nodes[k]? with _ | nd
  · rw [hn] at hk
    simp at hk
  · rw [hn] at hk
    simp only [Option.map_some', Option.some.injEq] at hk
    rw [← hk]
    exact hn

theorem mapInv_idmap_bound (g : Graph) (h : MapInv g) :
    ∀ e ∈ g.idmap, e.2 < g.next_id := by
  intro e he
  have hg := mapInv_mem g h e he
  have := List.getElem?_eq_some_iff.mp hg
  rcases this with ⟨hlt, _⟩
  rw [h.1]
  exact hlt

theorem presentAll_idmap_extends (ps : List Node) :
    ∀ g : Graph, ∃ ext, (presentAll ps g).idmap = g.idmap ++ ext := by
  induction ps with
  | nil => exact fun g => ⟨[], by simp [presentAll]⟩
  | cons p ps ih =>
      intro g
      rcases ih (getOrAssignID g p).2 with ⟨ext2, hext2⟩
      rcases hf : g.idmap.find? (fun e => nodeEq e.1 p) with _ | e
      · refine ⟨[(p, g.next_id)] ++ ext2, ?_⟩
        have h1 : (getOrAssignID g p).2.idmap = g.idmap ++ [(p, g.next_id)] := by
          simp [getOrAssignID, hf]
        calc (presentAll (p :: ps) g).idmap
            = (presentAll ps (getOrAssignID g p).2).idmap := rfl
          _ = (getOrAssignID g p).2.idmap ++ ext2 := hext2
          _ = g.idmap ++ ([(p, g.next_id)] ++ ext2) := by rw [h1, List.append_assoc]
      · refine ⟨ext2, ?_⟩
        have h1 : (getOrAssignID g p).2 = g := by simp [getOrAssignID, hf]
        calc (presentAll (p :: ps) g).idmap
            = (presentAll ps (getOrAssignID g p).2).idmap := rfl
          _ = (getOrAssignID g p).2.idmap ++ ext2 := hext2
          _ = g.idmap ++ ext2 := by rw [h1]

theorem find?_append_some {α : Type} (f : α → Bool) (l ext : List α) (e : α)
    (h : l.find? f = some e) : (l ++ ext).find? f = some e := by
  induction l with
  | nil => simp at h
  | cons a l ih =>
      by_cases ha : f a
      · rw [List.find?_cons_of_pos _ ha] at h
        rw [List.cons_append, List.find?_cons_of_pos _ ha]
        exact h
      · rw [List.find?_cons_of_neg _ (by simpa using ha)] at h
        rw [List.cons_append, List.find?_cons_of_neg _ (by simpa using ha)]
        exact ih h

theorem find?_append_none {α : Type} (f : α → Bool) (l ext : List α)
    (h : l.find? f = none) : (l ++ ext).find? f = ext.find? f := by
  induction l with
  | nil => simp
  | cons a l ih =>
      by_cases ha : f a
      · rw [List.find?_cons_of_pos _ ha] at h
        exact absurd h (by simp)
      · rw [List.find?_cons_of_neg _ (by simpa using ha)] at h
        rw [List.cons_append, List.find?_cons_of_neg _ (by simpa using ha)]
        exact ih h

theorem getOrAssignID_finds (g : Graph) (p : Node) :
    ∃ e, (getOrAssignID g p).2.idmap.find? (fun x => nodeEq x.1 p) = some e ∧
      e.2 = (getOrAssignID g p).1 := by
  rcases hf : g.idmap.find? (fun e => nodeEq e.1 p) with _ | e
  · refine ⟨(p, g.next_id), ?_, ?_⟩
    · simp only [getOrAssignID, hf]
      rw [find?_append_none _ _ _ hf]
      simp [nodeEq_refl]
    · simp only [getOrAssignID, hf]
  · exact ⟨e, by simp [getOrAssignID, hf], by simp [getOrAssignID, hf]⟩

theorem presentAll_finds (ps : List Node) :
    ∀ (g : Graph) (p : Node), p ∈ ps →
    ∃ e, (presentAll ps g).idmap.find? (fun x => nodeEq x.1 p) = some e := by
  induction ps with
  | nil => intro g p hp; simp at hp
  | cons q qs ih =>
      intro g p hp
      rcases List.mem_cons.mp hp with hq | hq
      · subst hq
        rcases getOrAssignID_finds g p with ⟨e, he, _⟩
        rcases presentAll_idmap_extends qs (getOrAssignID g p).2 with ⟨ext, hext⟩
        refine ⟨e, ?_⟩
        calc (presentAll (p :: qs) g).idmap.find? (fun x => nodeEq x.1 p)
            = ((getOrAssignID g p).2.idmap ++ ext).find? (fun x => nodeEq x.1 p) := by
              rw [← hext]; rfl
          _ = some e := find?_append_some _ _ _ e he
      · exact ih (getOrAssignID g q).2 p hq

/-- C1: for every sequence of addEdge calls followed by Compress, each
(parent, child) pair appears at most once in the compressed default cost
layer (the CSR's entry keys hold no duplicate), and the weight stored in
the CSR at any (id, id) position — in particular at
(id(parent), id(child)) of any colliding pending triplets — is the weight
of the last pending triplet written for that pair. -/
theorem compress_last_write_wins (ops : List (Node × Node × ℚ)) :
    ((Compress (addEdges ops emptyGraph)).csr.entryKeys).Nodup ∧
    ∀ i j, (Compress (addEdges ops emptyGraph)).csr.lookup i j =
      lastWeight (addEdges ops emptyGraph).triplets i j := by
  have hb : IdsBounded (addEdges ops emptyGraph) :=
    idsBounded_addEdges ops emptyGraph idsBounded_empty
  have hflag : (addEdges ops emptyGraph).needs_compression = true :=
    addEdges_needs_compression ops emptyGraph rfl
  rw [compress_csr_of_needed _ hflag]
  exact ⟨nodup_entryKeys_buildCSR _ _,
    lookup_buildCSR_bounded _ _ hb.2⟩

/-- C2: Compress is idempotent — for every graph, compressing twice in a
row yields a CSR (data, outer and inner arrays and dimensions) equal to
the CSR after compressing once, and compressing an already-compressed
graph leaves the CSR (indeed the whole graph) unchanged. -/
theorem compress_idempotent (g : Graph) :
    ((Compress (Compress g)).csr.rows = (Compress g).csr.rows ∧
     (Compress (Compress g)).csr.cols = (Compress g).csr.cols ∧
     (Compress (Compress g)).csr.outerArr = (Compress g).csr.outerArr ∧
     (Compress (Compress g)).csr.innerArr = (Compress g).csr.innerArr ∧
     (Compress (Compress g)).csr.dataArr = (Compress g).csr.dataArr) ∧
    (g.needs_compression = false → Compress g = g) := by
  refine ⟨?_, compress_of_not_needed g⟩
  rw [compress_compress]
  exact ⟨rfl, rfl, rfl, rfl, rfl⟩

theorem compress_idempotent_witness :
    (Compress emptyGraph).needs_compression = false ∧
    Compress (Compress emptyGraph) = Compress emptyGraph :=
  ⟨by decide, (compress_idempotent (Compress emptyGraph)).2 (by decide)⟩

/-- C3: edge queries are gated on compression — on a graph whose
`needs_compression` flag is set, `HasEdge`, `GetEdges` and
`AggregateGraph` raise the uncompressed error instead of returning a
result, and after `Compress` each of them succeeds. -/
theorem queries_require_compression (g : Graph) (p c : Node) (u : Bool)
    (agg : COST_AGGREGATE) (dir : Bool) (h : g.needs_compression = true) :
    HasEdge g p c u = .error .uncompressed ∧
    GetEdges g = .error .uncompressed ∧
    AggregateGraph g agg dir = .error .uncompressed ∧
    (∃ b, HasEdge (Compress g) p c u = .ok b) ∧
    (∃ es, GetEdges (Compress g) = .ok es) ∧
    (∃ v, AggregateGraph (Compress g) agg dir = .ok v) := by
  have hc := compress_needs_compression g
  refine ⟨by simp [HasEdge, h], by simp [GetEdges, h], by simp [AggregateGraph, h],
    ?_, ?_, ?_⟩
  · rcases hp : getID (Compress g) p with p' | p'
    · rcases hq : getID (Compress g) c with c' | c'
      · have hr : HasEdge (Compress g) p c u =
            .ok (checkForEdge (Compress g) p' c' || (u && checkForEdge (Compress g) c' p')) := by
          simp only [HasEdge, HasEdgeID, hc, Bool.false_eq_true, if_false, hp, hq]
        exact ⟨_, hr⟩
      · have hr : HasEdge (Compress g) p c u = .ok false := by
          simp only [HasEdge, hc, Bool.false_eq_true, if_false, hp, hq]
        exact ⟨_, hr⟩
    · have hr : HasEdge (Compress g) p c u = .ok false := by
        simp only [HasEdge, hc, Bool.false_eq_true, if_false, hp]
      exact ⟨_, hr⟩
  · have hr : GetEdges (Compress g) =
        .ok ((List.range (Compress g).csr.rows).map
          (fun i => (i, (Compress g).csr.rowList.getD i []))) := by
      simp only [GetEdges, hc, Bool.false_eq_true, if_false]
    exact ⟨_, hr⟩
  · cases dir
    · have hr : AggregateGraph (Compress g) agg false =
          .ok ((List.range (Compress g).csr.rows).map
            (fun i => aggVal agg (undirectedRow (Compress g).csr i))) := by
        simp only [AggregateGraph, hc, Bool.false_eq_true, if_false]
      exact ⟨_, hr⟩
    · have hr : AggregateGraph (Compress g) agg true =
          .ok ((Compress g).csr.rowList.map (aggVal agg)) := by
        simp only [AggregateGraph, hc, Bool.false_eq_true, if_false, if_true]
      exact ⟨_, hr⟩

theorem queries_require_compression_witness :
    emptyGraph.needs_compression = true ∧
    HasEdge emptyGraph nA nB false = .error .uncompressed ∧
    (∃ v, AggregateGraph (Compress emptyGraph) .SUM true = .ok v) :=
  ⟨rfl,
   (queries_require_compression emptyGraph nA nB false .SUM true rfl).1,
   (queries_require_compression emptyGraph nA nB false .SUM true rfl).2.2.2.2.2⟩

theorem getID_eq_of_found (g : Graph) (n : Node) (e : Node × Nat)
    (h : g.idmap.find? (fun x => nodeEq x.1 n) = some e) : getID g n = (e.2 : Int) := by
  unfold getID
  rw [h]

theorem getID_eq_of_not_found (g : Graph) (n : Node)
    (h : g.idmap.find? (fun x => nodeEq x.1 n) = none) : getID g n = -1 := by
  unfold getID
  rw [h]

/-- C4: id assignment is dense and stable — after presenting any sequence
of points to getOrAssignID starting from the empty graph, next_id equals
the number of stored nodes, the ids in the id map are exactly
0, 1, 2, ... with no gaps and each node's id equals its position in
ordered_nodes; a point that matches an existing entry (under eps) gets
back that entry's id and leaves the graph unchanged, and a new point is
appended to ordered_nodes and receives id = next_id, which is then
incremented. -/
theorem id_assignment_dense (ps : List Node) :
    (presentAll ps emptyGraph).next_id = (presentAll ps emptyGraph).ordered_nodes.length ∧
    (presentAll ps emptyGraph).idmap.map Prod.snd =
      List.range (presentAll ps emptyGraph).ordered_nodes.length ∧
    (∀ k : Nat, (presentAll ps emptyGraph).idmap[k]? =
      ((presentAll ps emptyGraph).ordered_nodes[k]?).map (fun nd => (nd, k))) ∧
    (∀ p e, (presentAll ps emptyGraph).idmap.find? (fun x => nodeEq x.1 p) = some e →
      getOrAssignID (presentAll ps emptyGraph) p = (e.2, presentAll ps emptyGraph)) ∧
    (∀ p, (presentAll ps emptyGraph).idmap.find? (fun x => nodeEq x.1 p) = none →
      (getOrAssignID (presentAll ps emptyGraph) p).1 = (presentAll ps emptyGraph).next_id ∧
      (getOrAssignID (presentAll ps emptyGraph) p).2.ordered_nodes =
        (presentAll ps emptyGraph).ordered_nodes ++ [p] ∧
      (getOrAssignID (presentAll ps emptyGraph) p).2.next_id =
        (presentAll ps emptyGraph).next_id + 1) := by
  have h := mapInv_presentAll ps emptyGraph mapInv_empty
  refine ⟨h.1, ?_, mapInv_getElem _ h, ?_, ?_⟩
  · rw [h.2, List.map_map]
    have hsnd : (Prod.snd ∘ fun e : Nat × Node => (e.2, e.1)) = Prod.fst := rfl
    rw [hsnd, List.enum_map_fst]
  · intro p e hf
    simp [getOrAssignID, hf]
  · intro p hf
    refine ⟨?_, ?_, ?_⟩ <;> simp [getOrAssignID, hf]

attribute [local semireducible] Rat.add Rat.sub Rat.mul Rat.inv Rat.ofScientific in
theorem id_assignment_dense_witness :
    ((presentAll [nA] emptyGraph).idmap.find? (fun x => nodeEq x.1 nA) = some (nA, 0) ∧
     getOrAssignID (presentAll [nA] emptyGraph) nA = ((nA, 0).2, presentAll [nA] emptyGraph)) ∧
    ((presentAll [nA] emptyGraph).idmap.find? (fun x => nodeEq x.1 nB) = none ∧
     (getOrAssignID (presentAll [nA] emptyGraph) nB).1 = (presentAll [nA] emptyGraph).next_id) :=
  ⟨⟨by decide, (id_assignment_dense [nA]).2.2.2.1 nA (nA, 0) (by decide)⟩,
   ⟨by decide, ((id_assignment_dense [nA]).2.2.2.2 nB (by decide)).1⟩⟩

/-- C5: for every node added to a graph, NodeFromID (getID node) returns
a node equal to it under the graph's eps point equality. -/
theorem nodeFromID_getID_roundtrip (ps : List Node) (p : Node) (hp : p ∈ ps) :
    ∃ q : Node,
      NodeFromID (presentAll ps emptyGraph) (getID (presentAll ps emptyGraph) p) = .ok q ∧
      nodeEq q p = true := by
  have hinv := mapInv_presentAll ps emptyGraph mapInv_empty
  rcases presentAll_finds ps emptyGraph p hp with ⟨e, he⟩
  have hid : getID (presentAll ps emptyGraph) p = (e.2 : Int) :=
    getID_eq_of_found _ _ _ he
  have hmem : e ∈ (presentAll ps emptyGraph).idmap := List.mem_of_find?_eq_some he
  have hne : nodeEq e.1 p = true := by
    have hraw := List.find?_some he
    simpa using hraw
  have hnode := mapInv_mem _ hinv e hmem
  refine ⟨e.1, ?_, hne⟩
  rw [hid]
  unfold NodeFromID
  rw [if_neg (by omega)]
  have ht : ((e.2 : Int)).toNat = e.2 := Int.toNat_natCast e.2
  rw [ht, hnode]

attribute [local semireducible] Rat.add Rat.sub Rat.mul Rat.inv Rat.ofScientific in
theorem nodeFromID_getID_roundtrip_witness :
    nB ∈ [nA, nB] ∧
    (∃ q : Node,
      NodeFromID (presentAll [nA, nB] emptyGraph)
        (getID (presentAll [nA, nB] emptyGraph) nB) = .ok q ∧
      nodeEq q nB = true) :=
  ⟨by decide, nodeFromID_getID_roundtrip [nA, nB] nB (by decide)⟩

/-- C10: for every graph and node not added to it, getID returns the
sentinel -1 (no error is raised) while hasKey returns false; for a node
that has been added, hasKey is true and getID returns its non-negative
assigned id, which indexes ordered_nodes. -/
theorem getID_sentinel (ps : List Node) (n : Node) :
    (hasKey (presentAll ps emptyGraph) n = false →
      getID (presentAll ps emptyGraph) n = -1) ∧
    (hasKey (presentAll ps emptyGraph) n = true →
      0 ≤ getID (presentAll ps emptyGraph) n ∧
      getID (presentAll ps emptyGraph) n <
        ((presentAll ps emptyGraph).ordered_nodes.length : Int)) ∧
    (n ∈ ps → hasKey (presentAll ps emptyGraph) n = true) := by
  have hinv := mapInv_presentAll ps emptyGraph mapInv_empty
  refine ⟨?_, ?_, ?_⟩
  · intro h
    unfold hasKey at h
    rcases hf : (presentAll ps emptyGraph).idmap.find? (fun x => nodeEq x.1 n) with _ | e
    · exact getID_eq_of_not_found _ _ hf
    · rw [hf] at h
      simp at h
  · intro h
    unfold hasKey at h
    rcases hf : (presentAll ps emptyGraph).idmap.find? (fun x => nodeEq x.1 n) with _ | e
    · rw [hf] at h
      simp at h
    · rw [getID_eq_of_found _ _ _ hf]
      have hb := mapInv_idmap_bound _ hinv e (List.mem_of_find?_eq_some hf)
      rw [hinv.1] at hb
      omega
  · intro hn
    rcases presentAll_finds ps emptyGraph n hn with ⟨e, he⟩
    unfold hasKey
    rw [he]
    rfl

attribute [local semireducible] Rat.add Rat.sub Rat.mul Rat.inv Rat.ofScientific in
theorem getID_sentinel_witness :
    (hasKey (presentAll [nA] emptyGraph) nB = false ∧
     getID (presentAll [nA] emptyGraph) nB = -1) ∧
    (hasKey (presentAll [nA] emptyGraph) nA = true ∧
     0 ≤ getID (presentAll [nA] emptyGraph) nA) :=
  ⟨⟨by decide, (getID_sentinel [nA] nB).1 (by decide)⟩,
   ⟨by decide, ((getID_sentinel [nA] nA).2.1 (by decide)).1⟩⟩

theorem getOrAssignID_idmap_extends (g : Graph) (p : Node) :
    ∃ ext, (getOrAssignID g p).2.idmap = g.idmap ++ ext := by
  rcases hf : g.idmap.find? (fun e => nodeEq e.1 p) with _ | e
  · exact ⟨[(p, g.next_id)], by simp [getOrAssignID, hf]⟩
  · exact ⟨[], by simp [getOrAssignID, hf]⟩

theorem addEdge_idmap (g : Graph) (p c : Node) (w : ℚ) :
    (addEdge g p c w).idmap = (getOrAssignID (getOrAssignID g p).2 c).2.idmap := rfl

theorem addEdge_next_id (g : Graph) (p c : Node) (w : ℚ) :
    (addEdge g p c w).next_id = (getOrAssignID (getOrAssignID g p).2 c).2.next_id := rfl

theorem addEdge_getID_parent (g : Graph) (p c : Node) (w : ℚ) :
    getID (addEdge g p c w) p = ((getOrAssignID g p).1 : Int) := by
  rcases getOrAssignID_finds g p with ⟨e, he, he2⟩
  rcases getOrAssignID_idmap_extends (getOrAssignID g p).2 c with ⟨ext, hext⟩
  have hfind : (addEdge g p c w).idmap.find? (fun x => nodeEq x.1 p) = some e := by
    rw [addEdge_idmap, hext]
    exact find?_append_some _ _ _ e he
  rw [getID_eq_of_found _ _ _ hfind, he2]

theorem addEdge_getID_child (g : Graph) (p c : Node) (w : ℚ) :
    getID (addEdge g p c w) c = ((getOrAssignID (getOrAssignID g p).2 c).1 : Int) := by
  rcases getOrAssignID_finds (getOrAssignID g p).2 c with ⟨e, he, he2⟩
  have hfind : (addEdge g p c w).idmap.find? (fun x => nodeEq x.1 c) = some e := by
    rw [addEdge_idmap]
    exact he
  rw [getID_eq_of_found _ _ _ hfind, he2]

theorem addEdge_triplets (g : Graph) (p c : Node) (w : ℚ) :
    (addEdge g p c w).triplets =
      g.triplets ++ [((getOrAssignID g p).1, (getOrAssignID (getOrAssignID g p).2 c).1, w)] := by
  unfold addEdge
  dsimp only
  rw [getOrAssignID_triplets, getOrAssignID_triplets]

theorem lastWeight_append_last (ts : List Trip) (p c : Nat) (w : ℚ) :
    lastWeight (ts ++ [(p, c, w)]) p c = some w := by
  unfold lastWeight
  rw [List.filter_append]
  have hone : List.filter (tripKey p c) [(p, c, w)] = [(p, c, w)] := by
    simp [tripKey]
  rw [hone, List.getLast?_concat]
  rfl

theorem addEdge_compress_lookup (g : Graph) (p c : Node) (w : ℚ)
    (hg : ∀ e ∈ g.idmap, e.2 < g.next_id) :
    ∃ ip ic : Nat,
      getID (addEdge g p c w) p = (ip : Int) ∧
      getID (addEdge g p c w) c = (ic : Int) ∧
      (Compress (addEdge g p c w)).csr.lookup ip ic = some w := by
  refine ⟨(getOrAssignID g p).1, (getOrAssignID (getOrAssignID g p).2 c).1,
    addEdge_getID_parent g p c w, addEdge_getID_child g p c w, ?_⟩
  rw [compress_csr_of_needed _ rfl, lookup_buildCSR]
  have hp1 : (getOrAssignID g p).1 < (addEdge g p c w).next_id := by
    rw [addEdge_next_id]
    exact Nat.lt_of_lt_of_le (getOrAssignID_id_lt g p hg)
      (getOrAssignID_next_id_le (getOrAssignID g p).2 c)
  have hc1 : (getOrAssignID (getOrAssignID g p).2 c).1 < (addEdge g p c w).next_id := by
    rw [addEdge_next_id]
    exact getOrAssignID_id_lt (getOrAssignID g p).2 c (getOrAssignID_idmap_bound g p hg)
  rw [if_pos ⟨hp1, hc1⟩, addEdge_triplets]
  exact lastWeight_append_last _ _ _ w

theorem compress_idmap (g : Graph) : (Compress g).idmap = g.idmap := by
  unfold Compress
  by_cases h : g.needs_compression <;> simp [h]

theorem compress_next_id (g : Graph) : (Compress g).next_id = g.next_id := by
  unfold Compress
  by_cases h : g.needs_compression <;> simp [h]

theorem fromArrays_idmap (edges : List (List Nat)) (distances : List (List ℚ))
    (nodes : List Node) :
    (fromArrays edges distances nodes).idmap = (presentAll nodes emptyGraph).idmap := by
  unfold fromArrays
  rw [compress_idmap]

theorem fromArrays_next_id (edges : List (List Nat)) (distances : List (List ℚ))
    (nodes : List Node) :
    (fromArrays edges distances nodes).next_id = (presentAll nodes emptyGraph).next_id := by
  unfold fromArrays
  rw [compress_next_id]

/-- C7: every graph — whether created by the empty constructor or by the
(nodes, edges, distances) array constructor — can be mutated by addEdge:
after addEdge (p, c, w) and a subsequent Compress, both endpoints have
assigned ids and the CSR of the default layer stores weight w at
(id p, id c). -/
theorem addEdge_mutates_any_graph (edges : List (List Nat))
    (distances : List (List ℚ)) (nodes : List Node) (p c : Node) (w : ℚ) :
    (∃ ip ic : Nat,
      getID (addEdge emptyGraph p c w) p = (ip : Int) ∧
      getID (addEdge emptyGraph p c w) c = (ic : Int) ∧
      (Compress (addEdge emptyGraph p c w)).csr.lookup ip ic = some w) ∧
    (∃ ip ic : Nat,
      getID (addEdge (fromArrays edges distances nodes) p c w) p = (ip : Int) ∧
      getID (addEdge (fromArrays edges distances nodes) p c w) c = (ic : Int) ∧
      (Compress (addEdge (fromArrays edges distances nodes) p c w)).csr.lookup ip ic
        = some w) := by
  constructor
  · refine addEdge_compress_lookup emptyGraph p c w ?_
    intro e he
    simp [emptyGraph] at he
  · refine addEdge_compress_lookup _ p c w ?_
    intro e he
    rw [fromArrays_idmap] at he
    rw [fromArrays_next_id]
    exact mapInv_idmap_bound _ (mapInv_presentAll nodes emptyGraph mapInv_empty) e he

theorem outerFrom_getD (L : List (List (Nat × ℚ))) :
    ∀ (a k : Nat), k ≤ L.length →
    (outerFrom a L).getD k 0 = a + ((L.take k).map List.length).sum := by
  induction L with
  | nil =>
      intro a k hk
      have hk0 : k = 0 := by simpa using hk
      subst hk0
      simp [outerFrom]
  | cons r rs ih =>
      intro a k hk
      cases k with
      | zero => simp [outerFrom]
      | succ k =>
          have hk2 : k ≤ rs.length := by simpa using hk
          simp only [outerFrom, List.getD_cons_succ, List.take_succ_cons,
            List.map_cons, List.sum_cons]
          rw [ih (a + r.length) k hk2]
          omega

theorem flatten_drop_take (L : List (List (Nat × ℚ))) :
    ∀ i, i < L.length →
    ((L.flatten).drop (((L.take i).map List.length).sum)).take (L.getD i []).length
      = L.getD i [] := by
  induction L with
  | nil => intro i hi; simp at hi
  | cons r rs ih =>
      intro i hi
      cases i with
      | zero =>
          simp only [List.take_zero, List.map_nil, List.sum_nil, List.drop_zero,
            List.getD_cons_zero, List.flatten_cons]
          exact List.take_left r rs.flatten
      | succ i =>
          have hi2 : i < rs.length := by simpa using hi
          simp only [List.take_succ_cons, List.map_cons, List.sum_cons,
            List.flatten_cons, List.getD_cons_succ]
          have hdrop : (r ++ rs.flatten).drop (r.length + ((rs.take i).map List.length).sum)
              = rs.flatten.drop (((rs.take i).map List.length).sum) := by
            rw [← List.drop_drop, List.drop_left]
          rw [hdrop]
          exact ih i hi2

theorem rowSlice_eq (m : CSR) (i : Nat) (hi : i < m.rowList.length) :
    m.rowSlice i = (m.rowList.getD i []).map Prod.snd := by
  unfold CSR.rowSlice CSR.dataArr CSR.outerArr
  rw [outerFrom_getD m.rowList 0 i (Nat.le_of_lt hi),
    outerFrom_getD m.rowList 0 (i + 1) (Nat.succ_le_of_lt hi)]
  have hsucc : (m.rowList.take (i + 1)).map List.length
      = (m.rowList.take i).map List.length ++ (m.rowList[i]?.map List.length).toList := by
    rw [List.take_succ, List.map_append]
    rcases h : m.rowList[i]? with _ | r <;> simp [h]
  have hgot : m.rowList[i]? = some (m.rowList.getD i []) := by
    rw [List.getD_eq_getElem?_getD, List.getElem?_eq_getElem hi]
    rfl
  rw [hsucc, hgot, List.sum_append]
  simp only [Option.map_some', Option.toList_some, List.sum_cons, List.sum_nil,
    Nat.zero_add, Nat.add_zero]
  have harith : ((m.rowList.take i).map List.length).sum + (m.rowList.getD i []).length
      - ((m.rowList.take i).map List.length).sum = (m.rowList.getD i []).length := by
    omega
  rw [harith]
  rw [← List.map_drop, ← List.map_take]
  rw [flatten_drop_take m.rowList i hi]

theorem buildCSR_rowList_length (n : Nat) (ts : List Trip) :
    (buildCSR n ts).rowList.length = n := by
  simp [buildCSR]

theorem compress_ordered_nodes (g : Graph) :
    (Compress g).ordered_nodes = g.ordered_nodes := by
  unfold Compress
  by_cases h : g.needs_compression <;> simp [h]

/-- C6: on a compressed graph (built by any addEdge sequence),
AggregateGraph with directed = true returns one score per node; for row i
the SUM entry is the sum of row i's nonzero weights in the flat CSR
arrays, the COUNT entry is the number of row i's nonzeros, and the
AVERAGE entry is SUM divided by the edge count, 0 for a node with no
edges. -/
theorem aggregateGraph_directed_rows (ops : List (Node × Node × ℚ)) (i : Nat)
    (hi : i < (Compress (addEdges ops emptyGraph)).csr.rows) :
    (∀ agg, AggregateGraph (Compress (addEdges ops emptyGraph)) agg true =
        .ok ((Compress (addEdges ops emptyGraph)).csr.rowList.map (aggVal agg)) ∧
      ((Compress (addEdges ops emptyGraph)).csr.rowList.map (aggVal agg)).length =
        (Compress (addEdges ops emptyGraph)).ordered_nodes.length) ∧
    ((Compress (addEdges ops emptyGraph)).csr.rowList.map (aggVal .SUM))[i]? =
      some ((Compress (addEdges ops emptyGraph)).csr.rowSlice i).sum ∧
    ((Compress (addEdges ops emptyGraph)).csr.rowList.map (aggVal .COUNT))[i]? =
      some (((Compress (addEdges ops emptyGraph)).csr.rowSlice i).length : ℚ) ∧
    ((Compress (addEdges ops emptyGraph)).csr.rowList.map (aggVal .AVERAGE))[i]? =
      some (if ((Compress (addEdges ops emptyGraph)).csr.rowSlice i).length = 0 then 0
        else ((Compress (addEdges ops emptyGraph)).csr.rowSlice i).sum /
          (((Compress (addEdges ops emptyGraph)).csr.rowSlice i).length : ℚ)) := by
  have hflag : (addEdges ops emptyGraph).needs_compression = true :=
    addEdges_needs_compression ops emptyGraph rfl
  have hc := compress_needs_compression (addEdges ops emptyGraph)
  have hcsr := compress_csr_of_needed _ hflag
  have hlen : (Compress (addEdges ops emptyGraph)).csr.rowList.length =
      (Compress (addEdges ops emptyGraph)).csr.rows := by
    rw [hcsr, buildCSR_rowList_length]
    rfl
  have hil : i < (Compress (addEdges ops emptyGraph)).csr.rowList.length := by
    rw [hlen]
    exact hi
  have hslice := rowSlice_eq (Compress (addEdges ops emptyGraph)).csr i hil
  have hget : (Compress (addEdges ops emptyGraph)).csr.rowList[i]? =
      some ((Compress (addEdges ops emptyGraph)).csr.rowList.getD i []) := by
    rw [List.getD_eq_getElem?_getD, List.getElem?_eq_getElem hil]
    rfl
  refine ⟨?_, ?_, ?_, ?_⟩
  · intro agg
    constructor
    · simp only [AggregateGraph, hc, Bool.false_eq_true, if_false, if_true]
    · rw [List.length_map, hlen, hcsr]
      have hr : (buildCSR (addEdges ops emptyGraph).next_id
          (addEdges ops emptyGraph).triplets).rows = (addEdges ops emptyGraph).next_id := rfl
      rw [hr, compress_ordered_nodes,
        (mapInv_addEdges ops emptyGraph mapInv_empty).1]
  · rw [List.getElem?_map, hget, hslice]
    simp [aggVal]
  · rw [List.getElem?_map, hget, hslice]
    simp [aggVal]
  · rw [List.getElem?_map, hget, hslice]
    simp only [Option.map_some', Option.some.injEq, aggVal, List.length_map]

attribute [local semireducible] Rat.add Rat.sub Rat.mul Rat.inv Rat.ofScientific in
theorem aggregateGraph_directed_rows_witness :
    0 < (Compress (addEdges [(nA, nB, 3)] emptyGraph)).csr.rows ∧
    ((Compress (addEdges [(nA, nB, 3)] emptyGraph)).csr.rowList.map
      (aggVal .SUM))[0]? =
      some ((Compress (addEdges [(nA, nB, 3)] emptyGraph)).csr.rowSlice 0).sum :=
  ⟨by decide, (aggregateGraph_directed_rows [(nA, nB, 3)] 0 (by decide)).2.1⟩

/-- C9: GetCSRPointers never requires a prior Compress — the graph it
returns is compressed, the exported pointers equal those exported from
the compressed graph, and whenever the CSR could not be constructed (no
data, as for an empty graph) the returned pointers are null, so AreValid
on the result is false. -/
theorem getCSRPointers_no_precompress (g : Graph) :
    (GetCSRPointers g).2.needs_compression = false ∧
    (GetCSRPointers g).1 = (GetCSRPointers (Compress g)).1 ∧
    ((Compress g).csr.dataArr = [] →
      (GetCSRPointers g).1.data = none ∧
      (GetCSRPointers g).1.outer_indices = none ∧
      (GetCSRPointers g).1.inner_indices = none ∧
      (GetCSRPointers g).1.AreValid = false) ∧
    (GetCSRPointers emptyGraph).1.AreValid = false := by
  refine ⟨?_, ?_, ?_, by decide⟩
  · unfold GetCSRPointers
    dsimp only
    by_cases h : (Compress g).csr.dataArr.isEmpty <;>
      simp [h, compress_needs_compression]
  · have hcc : Compress (Compress g) = Compress g := compress_compress g
    simp only [GetCSRPointers, hcc]
  · intro h
    unfold GetCSRPointers
    dsimp only
    rw [h]
    simp [CSRPtrs.AreValid]

theorem getCSRPointers_no_precompress_witness :
    (Compress emptyGraph).csr.dataArr = [] ∧
    (GetCSRPointers emptyGraph).1.data = none :=
  ⟨by decide, ((getCSRPointers_no_precompress emptyGraph).2.2.1 (by decide)).1⟩

/-- C8: every operation's status code is drawn from exactly the claimed
eleven-member set — the members of the source enum not marked "Unused."
are exactly the claimed codes, an operation never returns an unused code,
and its out-parameter is populated only when the status is OK. -/
theorem status_codes_exact {I A : Type} (op : SpecOperation I A) (x : I) :
    (op.run x).1 ∈ claimedStatusCodes ∧
    (((op.run x).2).isSome = true → (op.run x).1 = HF_STATUS.OK) ∧
    (∀ s : HF_STATUS, s ∈ claimedStatusCodes ↔ s.isUnused = false) := by
  have hiff : ∀ s : HF_STATUS, s ∈ claimedStatusCodes ↔ s.isUnused = false := by
    intro s
    cases s <;> decide
  exact ⟨(hiff _).mpr (op.returns_used x), op.out_only_on_ok x, hiff⟩

theorem status_codes_exact_witness :
    ((constOkOp.run ()).2).isSome = true ∧ (constOkOp.run ()).1 = HF_STATUS.OK :=
  ⟨rfl, (status_codes_exact constOkOp ()).2.1 rfl⟩

end DHART

